import Mathlib

/-
Verification development for the `carver` toolpath-generation repository
(src/carver).  The Python sources are shallowly embedded: host (Blender)
primitives — `Object.ray_cast`, `bmesh.ops.bisect_plane` plus contour slicing,
`Vector.normalize`, `to_track_quat(...).to_euler(...)`, `math.atan2` — are
abstract function parameters collected in host structures; host floats are
modelled as rationals; the one unbounded while-loop (inside
`pointInsideMesh`) is modelled with explicit fuel, `none` meaning the loop has
not exited within that fuel.
-/

/-- A `mathutils.Vector` with components x, y, z (host floats modelled as ℚ). -/
structure V3 where
  x : ℚ
  y : ℚ
  z : ℚ
deriving DecidableEq

instance : Add V3 := ⟨fun a b => ⟨a.x + b.x, a.y + b.y, a.z + b.z⟩⟩

instance : Sub V3 := ⟨fun a b => ⟨a.x - b.x, a.y - b.y, a.z - b.z⟩⟩

instance : SMul ℚ V3 := ⟨fun c v => ⟨c * v.x, c * v.y, c * v.z⟩⟩

theorem V3.smul_def (c : ℚ) (v : V3) : c • v = ⟨c * v.x, c * v.y, c * v.z⟩ := rfl

theorem V3.add_def (a b : V3) : a + b = ⟨a.x + b.x, a.y + b.y, a.z + b.z⟩ := rfl

theorem V3.sub_def (a b : V3) : a - b = ⟨a.x - b.x, a.y - b.y, a.z - b.z⟩ := rfl

/-- A `mathutils.Euler` rotation: three per-axis angles, indexable by axis 0..2. -/
structure Euler3 where
  r0 : ℚ
  r1 : ℚ
  r2 : ℚ
deriving DecidableEq

/-- `euler[ax]` indexing used by `minimize_objects_angular_distance`. -/
def Euler3.get (e : Euler3) : Fin 3 → ℚ
  | 0 => e.r0
  | 1 => e.r1
  | 2 => e.r2

/-- One keypoint `[location, rotation_euler]` as stored in `self._keypoints`. -/
structure KP where
  loc : V3
  rot : Euler3
deriving DecidableEq

/-- Python's `a % p` on floats for a positive modulus `p`:
the representative of `a` in `[0, p)`, i.e. `a - p * ⌊a / p⌋`. -/
def pymod (a p : ℚ) : ℚ := a - p * ⌊a / p⌋

/-- The wrapped difference computed in the body of
`helpers.minimize_objects_angular_distance`:
`diff = diff % (2*pi)`, then `diff -= 2*pi` when `diff > pi`
(`diff += 2*pi` when `diff < -pi`). `piq` stands for the host `math.pi`. -/
def wrapDiff (piq d : ℚ) : ℚ :=
  let m := pymod d (2 * piq)
  if piq < m then m - 2 * piq
  else if m < -piq then m + 2 * piq
  else m

/-- One iteration of the outer loop of `minimize_objects_angular_distance`:
`objects[i][1][ax] = objects[i-1][1][ax] + diff` for each of the three axes
(the three axis updates are independent of each other). -/
def minStep (piq : ℚ) (prev cur : Euler3) : Euler3 :=
  ⟨prev.r0 + wrapDiff piq (cur.r0 - prev.r0),
   prev.r1 + wrapDiff piq (cur.r1 - prev.r1),
   prev.r2 + wrapDiff piq (cur.r2 - prev.r2)⟩

def minimizeAux (piq : ℚ) (prev : KP) : List KP → List KP
  | [] => []
  | k :: rest =>
    let k2 : KP := ⟨k.loc, minStep piq prev.rot k.rot⟩
    k2 :: minimizeAux piq k2 rest

/-- `helpers.minimize_objects_angular_distance`: element 0 is untouched; each
later element's per-axis angle becomes the (already updated) previous
element's angle plus the wrapped difference. -/
def minimize_objects_angular_distance (piq : ℚ) : List KP → List KP
  | [] => []
  | k :: rest => k :: minimizeAux piq k rest

/-- Result tuple of the host `Object.ray_cast` when it reports a hit
(`location`, `normal`, `face index`); a miss (`index == -1`) is `Option.none`. -/
structure Hit where
  loc : V3
  nor : V3
  idx : ℕ
deriving DecidableEq

/-- The host `Object.ray_cast` primitive, abstract and deterministic:
arguments are the two vectors the Python code passes. -/
def RayCast : Type := V3 → V3 → Option Hit

/-- `axes = [Vector((1,0,0)), Vector((0,1,0)), Vector((0,0,1))]`. -/
def principalAxes : List V3 := [⟨1, 0, 0⟩, ⟨0, 1, 0⟩, ⟨0, 0, 1⟩]

/-- The `axis*0.00001` restart offset in `pointInsideMesh`. -/
def restartEps : ℚ := 1 / 100000

/-- The `axis*10000.0` far-target scale in `pointInsideMesh`. -/
def farScale : ℚ := 10000

/-- The unbounded `while True` loop of `helpers.pointInsideMesh` for one axis,
with fuel: cast from `orig` toward `orig + axis*10000`; a miss exits with the
crossing count so far; a hit increments the count and restarts from
`location + axis*0.00001`. `none` = the loop did not exit within `fuel`. -/
def axisCountGo (rc : RayCast) (axis : V3) : ℕ → V3 → ℕ → Option ℕ
  | fuel, orig, cnt =>
    match rc orig (orig + farScale • axis) with
    | none => some cnt
    | some h =>
      match fuel with
      | 0 => none
      | f + 1 => axisCountGo rc axis f (h.loc + restartEps • axis) (cnt + 1)

/-- Crossing count along one axis from point `p` (fuel-bounded). -/
def axisCount (rc : RayCast) (fuel : ℕ) (axis p : V3) : Option ℕ :=
  axisCountGo rc axis fuel p 0

/-- The outer `for axis in axes` loop of `pointInsideMesh`: the first axis with
an even count makes the point "outside" and stops the loop. -/
def pimGo (rc : RayCast) (fuel : ℕ) (p : V3) : List V3 → Option Bool
  | [] => some true
  | ax :: rest =>
    match axisCount rc fuel ax p with
    | none => none
    | some c => if c % 2 = 0 then some false else pimGo rc fuel p rest

/-- `helpers.pointInsideMesh point object`, with the host `object.ray_cast`
abstracted as `rc` and the unbounded per-axis loop given explicit fuel. -/
def pointInsideMesh (rc : RayCast) (fuel : ℕ) (p : V3) : Option Bool :=
  pimGo rc fuel p principalAxes

/-- The successive ray origins of the per-axis restart loop: `origAfter n`
is the origin used by the `n`-th cast, `none` once a miss has occurred
before step `n` (the loop has already exited). -/
def origAfter (rc : RayCast) (axis : V3) : ℕ → V3 → Option V3
  | 0, p => some p
  | n + 1, p =>
    match rc p (p + farScale • axis) with
    | none => none
    | some h => origAfter rc axis n (h.loc + restartEps • axis)

section MinimizeLemmas

theorem length_minimizeAux (piq : ℚ) (prev : KP) (l : List KP) :
    (minimizeAux piq prev l).length = l.length := by
  induction l generalizing prev with
  | nil => rfl
  | cons k rest ih => simp [minimizeAux, ih]

theorem length_minimize (piq : ℚ) (l : List KP) :
    (minimize_objects_angular_distance piq l).length = l.length := by
  cases l with
  | nil => rfl
  | cons k rest => simp [minimize_objects_angular_distance, length_minimizeAux]

theorem minimizeAux_get_succ (piq : ℚ) (prev : KP) (l : List KP) (i : ℕ)
    (h1 : i + 1 < (minimizeAux piq prev l).length) (h0 : i < (minimizeAux piq prev l).length)
    (hl : i + 1 < l.length) :
    (minimizeAux piq prev l).get ⟨i + 1, h1⟩ =
      ⟨(l.get ⟨i + 1, hl⟩).loc,
        minStep piq ((minimizeAux piq prev l).get ⟨i, h0⟩).rot (l.get ⟨i + 1, hl⟩).rot⟩ := by
  induction i generalizing prev l with
  | zero =>
    match l with
    | k :: k2 :: rest => rfl
  | succ i ih =>
    match l with
    | k :: rest =>
      have hlen : i + 1 < (minimizeAux piq ⟨k.loc, minStep piq prev.rot k.rot⟩ rest).length := by
        simpa [minimizeAux] using h1
      have hlen0 : i < (minimizeAux piq ⟨k.loc, minStep piq prev.rot k.rot⟩ rest).length := by
        omega
      have hrest : i + 1 < rest.length := by
        simpa using hl
      simpa [minimizeAux] using
        ih ⟨k.loc, minStep piq prev.rot k.rot⟩ rest hlen hlen0 hrest

theorem minimize_get_succ (piq : ℚ) (l : List KP) (i : ℕ)
    (h1 : i + 1 < (minimize_objects_angular_distance piq l).length)
    (h0 : i < (minimize_objects_angular_distance piq l).length)
    (hl : i + 1 < l.length) :
    (minimize_objects_angular_distance piq l).get ⟨i + 1, h1⟩ =
      ⟨(l.get ⟨i + 1, hl⟩).loc,
        minStep piq ((minimize_objects_angular_distance piq l).get ⟨i, h0⟩).rot
          (l.get ⟨i + 1, hl⟩).rot⟩ := by
  match l with
  | k :: rest =>
    match i with
    | 0 =>
      match rest with
      | k2 :: rest2 => rfl
    | j + 1 =>
      have ha1 : j + 1 < (minimizeAux piq k rest).length := by
        simpa [minimize_objects_angular_distance] using h1
      have ha0 : j < (minimizeAux piq k rest).length := by omega
      have hr : j + 1 < rest.length := by simpa using hl
      simpa [minimize_objects_angular_distance] using
        minimizeAux_get_succ piq k rest j ha1 ha0 hr

theorem pymod_eq_fract (a p : ℚ) (hp : p ≠ 0) :
    pymod a p = p * Int.fract (a / p) := by
  unfold pymod Int.fract
  field_simp

theorem pymod_nonneg (a p : ℚ) (hp : 0 < p) : 0 ≤ pymod a p := by
  rw [pymod_eq_fract a p (ne_of_gt hp)]
  exact mul_nonneg (le_of_lt hp) (Int.fract_nonneg _)

theorem pymod_lt (a p : ℚ) (hp : 0 < p) : pymod a p < p := by
  rw [pymod_eq_fract a p (ne_of_gt hp)]
  calc p * Int.fract (a / p) < p * 1 :=
        (mul_lt_mul_left hp).mpr (Int.fract_lt_one _)
    _ = p := mul_one p

theorem wrapDiff_bounds (piq d : ℚ) (hpi : 0 < piq) :
    -piq ≤ wrapDiff piq d ∧ wrapDiff piq d ≤ piq := by
  have h2 : 0 < 2 * piq := by linarith
  have hm0 : 0 ≤ pymod d (2 * piq) := pymod_nonneg _ _ h2
  have hm2 : pymod d (2 * piq) < 2 * piq := pymod_lt _ _ h2
  unfold wrapDiff
  set m := pymod d (2 * piq) with hm
  by_cases hgt : piq < m
  · simp only [if_pos hgt]
    constructor <;> linarith
  · simp only [if_neg hgt]
    have hlt : ¬m < -piq := by push_neg; linarith
    simp only [if_neg hlt]
    constructor <;> linarith

end MinimizeLemmas

theorem minStep_get (piq : ℚ) (prev cur : Euler3) (ax : Fin 3) :
    (minStep piq prev cur).get ax = prev.get ax + wrapDiff piq (cur.get ax - prev.get ax) := by
  fin_cases ax <;> rfl

/-- C4: for every input pose sequence, `minimize_objects_angular_distance`
yields a sequence whose per-axis deltas between consecutive poses lie within
[-pi, pi], and each output angle is the previous pose's (updated) angle plus
the wrapped difference `((next - prev) mod 2*pi)` remapped into [-pi, pi]. -/
theorem c4_angular_unwrap_deltas (piq : ℚ) (hpi : 0 < piq) (l : List KP) (i : ℕ) (ax : Fin 3)
    (hl : i + 1 < l.length)
    (h1 : i + 1 < (minimize_objects_angular_distance piq l).length)
    (h0 : i < (minimize_objects_angular_distance piq l).length) :
    (-piq ≤ ((minimize_objects_angular_distance piq l).get ⟨i + 1, h1⟩).rot.get ax -
        ((minimize_objects_angular_distance piq l).get ⟨i, h0⟩).rot.get ax) ∧
    (((minimize_objects_angular_distance piq l).get ⟨i + 1, h1⟩).rot.get ax -
        ((minimize_objects_angular_distance piq l).get ⟨i, h0⟩).rot.get ax ≤ piq) ∧
    (((minimize_objects_angular_distance piq l).get ⟨i + 1, h1⟩).rot.get ax =
        ((minimize_objects_angular_distance piq l).get ⟨i, h0⟩).rot.get ax +
          wrapDiff piq ((l.get ⟨i + 1, hl⟩).rot.get ax -
            ((minimize_objects_angular_distance piq l).get ⟨i, h0⟩).rot.get ax)) := by
  have hrec := minimize_get_succ piq l i h1 h0 hl
  have hrot : ((minimize_objects_angular_distance piq l).get ⟨i + 1, h1⟩).rot =
      minStep piq ((minimize_objects_angular_distance piq l).get ⟨i, h0⟩).rot
        (l.get ⟨i + 1, hl⟩).rot := by
    rw [hrec]
  rw [hrot, minStep_get]
  have hb := wrapDiff_bounds piq
    ((l.get ⟨i + 1, hl⟩).rot.get ax -
      ((minimize_objects_angular_distance piq l).get ⟨i, h0⟩).rot.get ax) hpi
  refine ⟨by linarith [hb.1], by linarith [hb.2], rfl⟩

/-- Concrete input for the C4 witness. -/
def c4wl : List KP := [⟨⟨0, 0, 0⟩, ⟨0, 0, 0⟩⟩, ⟨⟨1, 0, 0⟩, ⟨1, 5, 7⟩⟩]

theorem c4_witness :
    (0 : ℚ) < 3 ∧
    (-(3 : ℚ) ≤ ((minimize_objects_angular_distance 3 c4wl).get ⟨1, by decide⟩).rot.get 0 -
        ((minimize_objects_angular_distance 3 c4wl).get ⟨0, by decide⟩).rot.get 0) ∧
    (((minimize_objects_angular_distance 3 c4wl).get ⟨1, by decide⟩).rot.get 0 -
        ((minimize_objects_angular_distance 3 c4wl).get ⟨0, by decide⟩).rot.get 0 ≤ 3) ∧
    (((minimize_objects_angular_distance 3 c4wl).get ⟨1, by decide⟩).rot.get 0 =
        ((minimize_objects_angular_distance 3 c4wl).get ⟨0, by decide⟩).rot.get 0 +
          wrapDiff 3 ((c4wl.get ⟨1, by decide⟩).rot.get 0 -
            ((minimize_objects_angular_distance 3 c4wl).get ⟨0, by decide⟩).rot.get 0)) :=
  ⟨by norm_num, c4_angular_unwrap_deltas 3 (by norm_num) c4wl 0 0 (by decide) (by decide) (by decide)⟩

theorem pimGo_eq (rc : RayCast) (fuel : ℕ) (p : V3) (cnt : V3 → ℕ) (axlist : List V3)
    (h : ∀ ax ∈ axlist, axisCount rc fuel ax p = some (cnt ax)) :
    (pimGo rc fuel p axlist = some true ↔ ∀ ax ∈ axlist, cnt ax % 2 = 1) ∧
    (pimGo rc fuel p axlist = some false ↔ ∃ ax ∈ axlist, cnt ax % 2 = 0) := by
  induction axlist with
  | nil => simp [pimGo]
  | cons ax rest ih =>
    have hax := h ax (by simp)
    have hrest := ih (fun a ha => h a (by simp [ha]))
    by_cases he : cnt ax % 2 = 0
    · constructor
      · simp [pimGo, hax, he]
      · simp [pimGo, hax, he]
    · constructor
      · rw [show pimGo rc fuel p (ax :: rest) = pimGo rc fuel p rest by
          simp [pimGo, hax, he]]
        rw [hrest.1]
        constructor
        · intro hall a ha
          rcases List.mem_cons.mp ha with h1 | h2
          · subst h1; omega
          · exact hall a h2
        · intro hall a ha
          exact hall a (by simp [ha])
      · rw [show pimGo rc fuel p (ax :: rest) = pimGo rc fuel p rest by
          simp [pimGo, hax, he]]
        rw [hrest.2]
        constructor
        · rintro ⟨a, ha, hpar⟩
          exact ⟨a, by simp [ha], hpar⟩
        · rintro ⟨a, ha, hpar⟩
          rcases List.mem_cons.mp ha with h1 | h2
          · subst h1; omega
          · exact ⟨a, h2, hpar⟩

/-- C7: with the host ray cast abstract and deterministic, and each principal
axis's restart loop exiting with crossing count `cnt ax`, `pointInsideMesh`
returns true iff every axis count is odd, and false exactly when some axis
count is even. -/
theorem c7_pointInsideMesh_parity (rc : RayCast) (fuel : ℕ) (p : V3) (cnt : V3 → ℕ)
    (hterm : ∀ ax ∈ principalAxes, axisCount rc fuel ax p = some (cnt ax)) :
    (pointInsideMesh rc fuel p = some true ↔ ∀ ax ∈ principalAxes, cnt ax % 2 = 1) ∧
    (pointInsideMesh rc fuel p = some false ↔ ∃ ax ∈ principalAxes, cnt ax % 2 = 0) :=
  pimGo_eq rc fuel p cnt principalAxes hterm

theorem c7_witness :
    (∀ ax ∈ principalAxes,
      axisCount (fun _ _ => none) 0 ax ⟨0, 0, 0⟩ = some ((fun _ => 0) ax)) ∧
    ((pointInsideMesh (fun _ _ => none) 0 ⟨0, 0, 0⟩ = some true ↔
        ∀ ax ∈ principalAxes, (fun _ => 0) ax % 2 = 1) ∧
     (pointInsideMesh (fun _ _ => none) 0 ⟨0, 0, 0⟩ = some false ↔
        ∃ ax ∈ principalAxes, (fun _ => 0) ax % 2 = 0)) :=
  ⟨by decide, c7_pointInsideMesh_parity (fun _ _ => none) 0 ⟨0, 0, 0⟩ (fun _ => 0) (by decide)⟩

theorem axisCountGo_miss (rc : RayCast) (axis : V3) (fuel : ℕ) (orig : V3) (cnt : ℕ)
    (h : rc orig (orig + farScale • axis) = none) :
    axisCountGo rc axis fuel orig cnt = some cnt := by
  rw [axisCountGo, h]

theorem axisCountGo_hit_zero (rc : RayCast) (axis : V3) (orig : V3) (cnt : ℕ) (ht : Hit)
    (h : rc orig (orig + farScale • axis) = some ht) :
    axisCountGo rc axis 0 orig cnt = none := by
  rw [axisCountGo, h]

theorem axisCountGo_hit_succ (rc : RayCast) (axis : V3) (f : ℕ) (orig : V3) (cnt : ℕ) (ht : Hit)
    (h : rc orig (orig + farScale • axis) = some ht) :
    axisCountGo rc axis (f + 1) orig cnt =
      axisCountGo rc axis f (ht.loc + restartEps • axis) (cnt + 1) := by
  rw [axisCountGo, h]

theorem origAfter_succ_miss (rc : RayCast) (axis : V3) (n : ℕ) (p : V3)
    (h : rc p (p + farScale • axis) = none) :
    origAfter rc axis (n + 1) p = none := by
  rw [origAfter, h]

theorem origAfter_succ_hit (rc : RayCast) (axis : V3) (n : ℕ) (p : V3) (ht : Hit)
    (h : rc p (p + farScale • axis) = some ht) :
    origAfter rc axis (n + 1) p = origAfter rc axis n (ht.loc + restartEps • axis) := by
  rw [origAfter, h]

theorem axisCountGo_some_imp_miss (rc : RayCast) (axis : V3) (fuel : ℕ) :
    ∀ (p : V3) (cnt c : ℕ), axisCountGo rc axis fuel p cnt = some c →
      ∃ n o, origAfter rc axis n p = some o ∧ rc o (o + farScale • axis) = none := by
  induction fuel with
  | zero =>
    intro p cnt c hgo
    cases hrc : rc p (p + farScale • axis) with
    | none => exact ⟨0, p, rfl, hrc⟩
    | some h =>
      rw [axisCountGo_hit_zero rc axis p cnt h hrc] at hgo
      exact absurd hgo (by simp)
  | succ f ih =>
    intro p cnt c hgo
    cases hrc : rc p (p + farScale • axis) with
    | none => exact ⟨0, p, rfl, hrc⟩
    | some h =>
      rw [axisCountGo_hit_succ rc axis f p cnt h hrc] at hgo
      obtain ⟨n, o, ho, hmiss⟩ := ih (h.loc + restartEps • axis) (cnt + 1) c hgo
      refine ⟨n + 1, o, ?_, hmiss⟩
      rw [origAfter_succ_hit rc axis n p h hrc]
      exact ho

theorem miss_imp_axisCountGo_some (rc : RayCast) (axis : V3) (n : ℕ) :
    ∀ (p o : V3), origAfter rc axis n p = some o →
      rc o (o + farScale • axis) = none →
      ∀ cnt, ∃ c, axisCountGo rc axis n p cnt = some c := by
  induction n with
  | zero =>
    intro p o ho hmiss cnt
    have hpo : p = o := by simpa [origAfter] using ho
    subst hpo
    exact ⟨cnt, axisCountGo_miss rc axis 0 p cnt hmiss⟩
  | succ m ih =>
    intro p o ho hmiss cnt
    cases hrc : rc p (p + farScale • axis) with
    | none => exact ⟨cnt, axisCountGo_miss rc axis (m + 1) p cnt hrc⟩
    | some h =>
      have ho2 : origAfter rc axis m (h.loc + restartEps • axis) = some o := by
        rw [origAfter_succ_hit rc axis m p h hrc] at ho
        exact ho
      obtain ⟨c, hc⟩ := ih (h.loc + restartEps • axis) o ho2 hmiss (cnt + 1)
      refine ⟨c, ?_⟩
      rw [axisCountGo_hit_succ rc axis m p cnt h hrc]
      exact hc

/-- C8: the restart loop of `pointInsideMesh` has no iteration bound: for a
given point, axis and abstract ray-cast function it exits (some fuel
suffices) iff the sequence of casts restarted just past each hit eventually
reports a miss; and there is ray-cast behaviour (a cast that always hits)
under which it never exits, whatever the fuel. -/
theorem c8_restart_loop_unbounded :
    (∀ (rc : RayCast) (axis p : V3),
      (∃ fuel c, axisCount rc fuel axis p = some c) ↔
      (∃ n o, origAfter rc axis n p = some o ∧ rc o (o + farScale • axis) = none)) ∧
    (∃ rc : RayCast, ∀ (axis : V3) (fuel : ℕ) (orig : V3) (cnt : ℕ),
      axisCountGo rc axis fuel orig cnt = none) := by
  constructor
  · intro rc axis p
    constructor
    · rintro ⟨fuel, c, hc⟩
      exact axisCountGo_some_imp_miss rc axis fuel p 0 c hc
    · rintro ⟨n, o, ho, hmiss⟩
      obtain ⟨c, hc⟩ := miss_imp_axisCountGo_some rc axis n p o ho hmiss 0
      exact ⟨n, c, hc⟩
  · refine ⟨fun o _ => some ⟨o, o, 0⟩, fun axis fuel => ?_⟩
    induction fuel with
    | zero =>
      intro orig cnt
      exact axisCountGo_hit_zero _ axis orig cnt ⟨orig, orig, 0⟩ rfl
    | succ f ih =>
      intro orig cnt
      rw [axisCountGo_hit_succ _ axis f orig cnt ⟨orig, orig, 0⟩ rfl]
      exact ih _ _

/-- Abstract host environment behind cam.py: the TARGET's `Object.ray_cast`,
the `get_contour` slicing pipeline (bmesh bisect + subdivision, keyed by the
plane's center and normal; `error` = a host exception, `ok none` = empty
cut), `Vector.normalize`, the `to_track_quat('Z','Y').to_euler("XYZ")`
conversion, `math.atan2` and `math.pi`. -/
structure Host where
  rc : RayCast
  contour : V3 → V3 → Except ℕ (Option (List V3))
  normalize : V3 → V3
  trackEuler : V3 → Euler3
  atan2 : ℚ → ℚ → ℚ
  piq : ℚ

/-- `helpers.ray_cast_from_to origin target obj`: normalized direction from
`origin` to `target`, then `obj.ray_cast(origin, direction)`. -/
def ray_cast_from_to (h : Host) (origin target : V3) : Option Hit :=
  h.rc origin (h.normalize (target - origin))

/-- Outcome of a Python build step: normal return, an uncaught exception
(carrying the object state left behind — Python objects survive the raise),
or non-termination / fuel exhaustion. -/
inductive BuildRes (σ : Type) where
  | ok : σ → BuildRes σ
  | exn : σ → ℕ → BuildRes σ
  | hang : BuildRes σ
deriving DecidableEq

/-- State of a `ContourTrace` task: `center`, `plane_normal`, `self.contour`
(the slice's vertex list once created) and `self._keypoints`. The Blender
`TARGET`/`TOOL` objects live behind the abstract `Host`. -/
structure ContourTrace where
  center : V3
  plane_normal : V3
  contour : Option (List V3)
  keypoints : List KP
deriving DecidableEq

/-- `ContourTrace.__init__`: fresh `_keypoints = []`, `self.contour = None`. -/
def ContourTrace.mk0 (center plane_normal : V3) : ContourTrace :=
  ⟨center, plane_normal, none, []⟩

/-- The two diagonal probe pairs `((.5,.5,0), (-.5,-.5,0))` and
`((-.5,.5,0), (.5,-.5,0))` of `sample_for_normals`. -/
def probePairs : List (V3 × V3) :=
  [(⟨1/2, 1/2, 0⟩, ⟨-(1/2), -(1/2), 0⟩), (⟨-(1/2), 1/2, 0⟩, ⟨1/2, -(1/2), 0⟩)]

/-- The `for p1, p2 in [...]` probe loop of `sample_for_normals` for one
contour vertex: the final `result` value (`some none` when it stays
`[False]`); outer `none` = one of the `pointInsideMesh` calls diverged. -/
def probeLoop (h : Host) (fuel : ℕ) (point : V3) : List (V3 × V3) → Option (Option Hit)
  | [] => some none
  | (p1, p2) :: rest =>
    let v1 := point + (1/4 : ℚ) • p1
    let v2 := point + (1/4 : ℚ) • p2
    match pointInsideMesh h.rc fuel v1, pointInsideMesh h.rc fuel v2 with
    | some i1, some i2 =>
      if i1 && !i2 then some (ray_cast_from_to h v2 v1)
      else if i2 && !i1 then some (ray_cast_from_to h v1 v2)
      else probeLoop h fuel point rest
    | _, _ => none

/-- One iteration of the per-vertex loop of `sample_for_normals`: the pose
appended for vertex `v`, if any (`some none` = vertex skipped):
`location + normal*offset` and the track-to euler of the hit normal. -/
def sampleOne (h : Host) (fuel : ℕ) (offset : ℚ) (v : V3) : Option (Option KP) :=
  match probeLoop h fuel v probePairs with
  | none => none
  | some none => some none
  | some (some ht) => some (some ⟨ht.loc + offset • ht.nor, h.trackEuler ht.nor⟩)

/-- `ContourTrace.sample_for_normals offset` over the contour's vertices,
appending each found pose to the existing `self._keypoints` (`ks`). -/
def sample_for_normals (h : Host) (fuel : ℕ) (offset : ℚ) :
    List V3 → List KP → Option (List KP)
  | [], ks => some ks
  | v :: vs, ks =>
    match sampleOne h fuel offset v with
    | none => none
    | some none => sample_for_normals h fuel offset vs ks
    | some (some k) => sample_for_normals h fuel offset vs (ks ++ [k])

/-- `get_angle_z` inside `ContourTrace._build`: `atan2(location.y, location.x)`
through the host math library. -/
def get_angle_z (h : Host) (k : KP) : ℚ := h.atan2 k.loc.y k.loc.x

/-- Python `sorted(self._keypoints, key=get_angle_z)`: a stable sort
comparing keys. -/
def sortKeypoints (h : Host) (ks : List KP) : List KP :=
  ks.mergeSort (fun a b => decide (get_angle_z h a ≤ get_angle_z h b))

/-- `ContourTrace.get_contour`: the host bisect/subdivide pipeline, keyed by
`(center, plane_normal)`. A host exception is re-raised; an empty cut ("No
contour found") returns early leaving `self.contour` unchanged; otherwise
`self.contour` becomes the new slice. -/
def ContourTrace.get_contour (h : Host) (st : ContourTrace) : Except ℕ ContourTrace :=
  match h.contour st.center st.plane_normal with
  | .error e => .error e
  | .ok none => .ok st
  | .ok (some verts) => .ok { st with contour := some verts }

/-- `ContourTrace._build` (and `CAMTask.build`, which only adds logging and
re-raises): run `get_contour`; if a contour exists, sample normals (appending
onto the existing `_keypoints`), sort by angle about Z, and angularly unwrap. -/
def ContourTrace.build (h : Host) (fuel : ℕ) (st : ContourTrace) : BuildRes ContourTrace :=
  match ContourTrace.get_contour h st with
  | .error e => .exn st e
  | .ok st1 =>
    match st1.contour with
    | none => .ok st1
    | some verts =>
      match sample_for_normals h fuel 0 verts st1.keypoints with
      | none => .hang
      | some ks =>
        .ok { st1 with
          keypoints := minimize_objects_angular_distance h.piq (sortKeypoints h ks) }

/-- State of a `MultiContourTrace` task: `start`, `height`, `cuts` and
`sub_tasks`. The constructor's `plane_normal` argument is not stored. -/
structure MultiContourTrace where
  start : V3
  height : ℚ
  cuts : ℕ
  sub_tasks : List ContourTrace
deriving DecidableEq

/-- `MultiContourTrace.__init__ target tool start height cuts plane_normal`:
the `plane_normal` argument is accepted and dropped; `sub_tasks = []`. -/
def MultiContourTrace.mk0 (startv : V3) (height : ℚ) (cuts : ℕ) (plane_normal : V3) :
    MultiContourTrace :=
  ⟨startv, height, cuts, []⟩

/-- The `for i in range(self.cuts + 1)` loop of `MultiContourTrace._build`:
build a fresh `ContourTrace` centered at `start + i*dv` with plane normal
`axis` and append it to `sub_tasks`; a child exception propagates with the
failed child not appended; `r` = remaining iterations. -/
def MultiContourTrace.buildGo (h : Host) (fuel : ℕ) (startv dv axis : V3) :
    ℕ → ℕ → MultiContourTrace → BuildRes MultiContourTrace
  | _, 0, st => .ok st
  | i, r + 1, st =>
    match ContourTrace.build h fuel (ContourTrace.mk0 (startv + (i : ℚ) • dv) axis) with
    | .ok c =>
      MultiContourTrace.buildGo h fuel startv dv axis (i + 1) r
        { st with sub_tasks := st.sub_tasks ++ [c] }
    | .exn _ e => .exn st e
    | .hang => .hang

/-- `MultiContourTrace._build`: `end = start.copy(); end.z += height;
axis = end - start; dv = axis / cuts`, then `cuts + 1` loop iterations.
(`cuts = 0` would raise ZeroDivisionError in Python; the claims and theorems
assume `1 ≤ cuts`, ℚ-division supplying a junk value at 0.) -/
def MultiContourTrace.build (h : Host) (fuel : ℕ) (st : MultiContourTrace) :
    BuildRes MultiContourTrace :=
  let endv : V3 := ⟨st.start.x, st.start.y, st.start.z + st.height⟩
  let axis := endv - st.start
  let dv : V3 := ((st.cuts : ℚ))⁻¹ • axis
  MultiContourTrace.buildGo h fuel st.start dv axis 0 (st.cuts + 1) st

/-- `CAMTask.get_keypoints`: `copy.deepcopy(self._keypoints)` — as a value,
the keypoint list itself (the heap model further below covers the
copy-vs-alias semantics). -/
def ContourTrace.get_keypoints (st : ContourTrace) : List KP := st.keypoints

/-- `MultiContourTrace.get_keypoints`: concatenation of the children's
(deep-copied) keypoint sequences in slice order. -/
def MultiContourTrace.get_keypoints (st : MultiContourTrace) : List KP :=
  (st.sub_tasks.map ContourTrace.get_keypoints).flatten

/-- A task owned by a job (the concrete task classes of cam.py). -/
inductive CAMTask where
  | contourTrace : ContourTrace → CAMTask
  | multiContourTrace : MultiContourTrace → CAMTask
deriving DecidableEq

/-- Dynamic dispatch of `task.build()`. -/
def CAMTask.build (h : Host) (fuel : ℕ) : CAMTask → BuildRes CAMTask
  | .contourTrace st =>
    match ContourTrace.build h fuel st with
    | .ok s => .ok (CAMTask.contourTrace s)
    | .exn s e => .exn (CAMTask.contourTrace s) e
    | .hang => .hang
  | .multiContourTrace st =>
    match MultiContourTrace.build h fuel st with
    | .ok s => .ok (CAMTask.multiContourTrace s)
    | .exn s e => .exn (CAMTask.multiContourTrace s) e
    | .hang => .hang

/-- Dynamic dispatch of `task.get_keypoints()`. -/
def CAMTask.get_keypoints : CAMTask → List KP
  | .contourTrace st => ContourTrace.get_keypoints st
  | .multiContourTrace st => MultiContourTrace.get_keypoints st

/-- `CAMTask.build` has no `return` statement: its Python call value is
`None`. -/
def CAMTask.buildValue : Option (List KP) := none

/-- Python truthiness of the `task_keypoints` value in `XYZIJK_Job.build`
(`None` and the empty list are falsy). -/
def pyTruthy : Option (List KP) → Bool
  | none => false
  | some l => !l.isEmpty

/-- State of an `XYZIJK_Job`: its task list and its `self.keypoints`. -/
structure XYZIJK_Job where
  tasks : List CAMTask
  keypoints : List KP
deriving DecidableEq

/-- The task loop of `XYZIJK_Job.build`: `task_keypoints = task.build()`
(which is always `None` because `CAMTask.build` returns nothing), extend
`self.keypoints` only when that value is truthy; a task exception
propagates, leaving earlier tasks built and later tasks untouched. -/
def XYZIJK_Job.buildGo (h : Host) (fuel : ℕ) :
    List CAMTask → List KP → List CAMTask → BuildRes XYZIJK_Job
  | done, kps, [] => .ok ⟨done, kps⟩
  | done, kps, t :: ts =>
    match CAMTask.build h fuel t with
    | .ok t2 =>
      let ret := CAMTask.buildValue
      let kps2 := if pyTruthy ret then kps ++ ret.getD [] else kps
      XYZIJK_Job.buildGo h fuel (done ++ [t2]) kps2 ts
    | .exn t2 e => .exn ⟨done ++ t2 :: ts, kps⟩ e
    | .hang => .hang

/-- `XYZIJK_Job.build`: the validity precheck (ValueError, code 100, when the
tool or target reference is stale) and then `self.keypoints = []` followed by
the task loop. -/
def XYZIJK_Job.build (valid : Bool) (h : Host) (fuel : ℕ) (j : XYZIJK_Job) :
    BuildRes XYZIJK_Job :=
  if valid then XYZIJK_Job.buildGo h fuel [] [] j.tasks else .exn j 100

theorem sample_append (h : Host) (fuel : ℕ) (offset : ℚ) (verts : List V3) :
    ∀ ks : List KP,
      sample_for_normals h fuel offset verts ks =
        (sample_for_normals h fuel offset verts []).map (fun s => ks ++ s) := by
  induction verts with
  | nil => intro ks; simp [sample_for_normals]
  | cons v vs ih =>
    intro ks
    cases ho : sampleOne h fuel offset v with
    | none => simp [sample_for_normals, ho]
    | some o =>
      cases o with
      | none =>
        have h1 : sample_for_normals h fuel offset (v :: vs) ks =
            sample_for_normals h fuel offset vs ks := by
          simp [sample_for_normals, ho]
        have h2 : sample_for_normals h fuel offset (v :: vs) [] =
            sample_for_normals h fuel offset vs [] := by
          simp [sample_for_normals, ho]
        rw [h1, h2, ih ks]
      | some k =>
        have h1 : sample_for_normals h fuel offset (v :: vs) ks =
            sample_for_normals h fuel offset vs (ks ++ [k]) := by
          simp [sample_for_normals, ho]
        have h2 : sample_for_normals h fuel offset (v :: vs) [] =
            sample_for_normals h fuel offset vs [k] := by
          simp [sample_for_normals, ho]
        rw [h1, h2, ih (ks ++ [k]), ih [k]]
        cases sample_for_normals h fuel offset vs [] with
        | none => simp
        | some s => simp

/-- The value of `self.contour` after a successful `get_contour` whose host
slice result was `r` (`none` result leaves the old contour in place). -/
def contourAfter (st : ContourTrace) : Option (List V3) → Option (List V3)
  | some v => some v
  | none => st.contour

theorem ct_build_ok_cases (h : Host) (fuel : ℕ) (st st2 : ContourTrace)
    (hok : ContourTrace.build h fuel st = .ok st2) :
    ∃ r, h.contour st.center st.plane_normal = .ok r ∧
      ((contourAfter st r = none ∧ st2 = { st with contour := contourAfter st r }) ∨
       (∃ verts s, contourAfter st r = some verts ∧
          sample_for_normals h fuel 0 verts [] = some s ∧
          st2 = { st with
            contour := contourAfter st r
            keypoints := minimize_objects_angular_distance h.piq
              (sortKeypoints h (st.keypoints ++ s)) })) := by
  cases hcc : h.contour st.center st.plane_normal with
  | error e =>
    simp [ContourTrace.build, ContourTrace.get_contour, hcc] at hok
  | ok r =>
    refine ⟨r, rfl, ?_⟩
    cases r with
    | none =>
      cases hco : st.contour with
      | none =>
        simp [ContourTrace.build, ContourTrace.get_contour, hcc, hco] at hok
        left
        refine ⟨by simp [contourAfter, hco], ?_⟩
        rw [← hok]
        rfl
      | some verts =>
        right
        cases hs : sample_for_normals h fuel 0 verts st.keypoints with
        | none =>
          simp [ContourTrace.build, ContourTrace.get_contour, hcc, hco, hs] at hok
        | some ks =>
          rw [sample_append] at hs
          cases hs0 : sample_for_normals h fuel 0 verts [] with
          | none => rw [hs0] at hs; simp at hs
          | some s =>
            rw [hs0] at hs
            simp at hs
            refine ⟨verts, s, by simp [contourAfter, hco], hs0, ?_⟩
            have hs2 : sample_for_normals h fuel 0 verts st.keypoints =
                some (st.keypoints ++ s) := by
              rw [sample_append, hs0]
              rfl
            simp [ContourTrace.build, ContourTrace.get_contour, hcc, hco, hs2] at hok
            rw [← hok]
            simp [contourAfter, hco]
    | some v =>
      right
      cases hs : sample_for_normals h fuel 0 v st.keypoints with
      | none =>
        simp [ContourTrace.build, ContourTrace.get_contour, hcc, hs] at hok
      | some ks =>
        rw [sample_append] at hs
        cases hs0 : sample_for_normals h fuel 0 v [] with
        | none => rw [hs0] at hs; simp at hs
        | some s =>
          rw [hs0] at hs
          simp at hs
          refine ⟨v, s, rfl, hs0, ?_⟩
          have hs2 : sample_for_normals h fuel 0 v st.keypoints =
              some (st.keypoints ++ s) := by
            rw [sample_append, hs0]
            rfl
          simp [ContourTrace.build, ContourTrace.get_contour, hcc, hs2] at hok
          rw [← hok]
          simp [contourAfter]

theorem ct_build_preserves (h : Host) (fuel : ℕ) (st st2 : ContourTrace)
    (hok : ContourTrace.build h fuel st = .ok st2) :
    st2.center = st.center ∧ st2.plane_normal = st.plane_normal := by
  obtain ⟨r, _, hcase⟩ := ct_build_ok_cases h fuel st st2 hok
  rcases hcase with ⟨_, hst⟩ | ⟨verts, s, _, _, hst⟩ <;> rw [hst] <;> exact ⟨rfl, rfl⟩

theorem list_get_congr {α : Type} (l l2 : List α) (hll : l = l2) (i : ℕ)
    (hi : i < l.length) (hi2 : i < l2.length) :
    l.get ⟨i, hi⟩ = l2.get ⟨i, hi2⟩ := by
  subst hll
  rfl

theorem mct_buildGo_ok_spec (h : Host) (fuel : ℕ) (startv dv axis : V3) :
    ∀ (r i : ℕ) (st st2 : MultiContourTrace),
      MultiContourTrace.buildGo h fuel startv dv axis i r st = .ok st2 →
      ∃ ch : List ContourTrace,
        (st2.start = st.start ∧ st2.height = st.height ∧ st2.cuts = st.cuts ∧
          st2.sub_tasks = st.sub_tasks ++ ch) ∧
        ch.length = r ∧
        ∀ j (hj : j < ch.length),
          (ch.get ⟨j, hj⟩).center = startv + (((i + j : ℕ) : ℚ)) • dv ∧
          (ch.get ⟨j, hj⟩).plane_normal = axis := by
  intro r
  induction r with
  | zero =>
    intro i st st2 hgo
    have hst : st = st2 := by
      simpa [MultiContourTrace.buildGo] using hgo
    exact ⟨[], by simp [← hst], rfl, fun j hj => absurd hj (by simp)⟩
  | succ n ih =>
    intro i st st2 hgo
    cases hcb : ContourTrace.build h fuel (ContourTrace.mk0 (startv + (i : ℚ) • dv) axis) with
    | ok c =>
      have hgo2 : MultiContourTrace.buildGo h fuel startv dv axis (i + 1) n
          { st with sub_tasks := st.sub_tasks ++ [c] } = .ok st2 := by
        simpa [MultiContourTrace.buildGo, hcb] using hgo
      obtain ⟨ch, hst, hlen, hget⟩ := ih (i + 1) _ st2 hgo2
      refine ⟨c :: ch, ?_, by simp [hlen], ?_⟩
      · obtain ⟨h1, h2, h3, h4⟩ := hst
        refine ⟨by simpa using h1, by simpa using h2, by simpa using h3, ?_⟩
        rw [h4]
        simp
      · intro j hj
        have hpres := ct_build_preserves h fuel _ c hcb
        match j with
        | 0 =>
          refine ⟨?_, ?_⟩
          · show c.center = startv + (((i + 0 : ℕ) : ℚ)) • dv
            rw [hpres.1]
            simp [ContourTrace.mk0]
          · show c.plane_normal = axis
            rw [hpres.2]
            rfl
        | j + 1 =>
          have hj2 : j < ch.length := by simpa using hj
          have := hget j hj2
          refine ⟨?_, this.2⟩
          show (ch.get ⟨j, hj2⟩).center = startv + (((i + (j + 1) : ℕ) : ℚ)) • dv
          rw [this.1]
          congr 2
          push_cast
          ring
    | exn c e =>
      simp [MultiContourTrace.buildGo, hcb] at hgo
    | hang =>
      simp [MultiContourTrace.buildGo, hcb] at hgo

theorem V3.eq_iff (a b : V3) : a = b ↔ a.x = b.x ∧ a.y = b.y ∧ a.z = b.z := by
  constructor
  · intro hab
    subst hab
    exact ⟨rfl, rfl, rfl⟩
  · rintro ⟨h1, h2, h3⟩
    cases a
    cases b
    simp_all

/-- A trivial host: every ray cast misses and every slice comes back empty. -/
def hostTriv : Host :=
  ⟨fun _ _ => none, fun _ _ => .ok none, fun v => v, fun _ => ⟨0, 0, 0⟩, fun _ _ => 0, 3⟩

/-- C5: building a fresh `MultiContourTrace` (cuts ≥ 1) creates exactly
`cuts + 1` child `ContourTrace` tasks, the i-th centered at
`start + i*(height/cuts)*zhat` with the start-to-end vector `(0,0,height)`
as plane normal, and its `get_keypoints()` is the concatenation of the
children's keypoint sequences in slice order, of length the sum of the
children's lengths. -/
theorem c5_multi_slice_composition (h : Host) (fuel : ℕ) (startv : V3) (height : ℚ)
    (cuts : ℕ) (pn : V3) (st2 : MultiContourTrace) (hcuts : 1 ≤ cuts)
    (hok : MultiContourTrace.build h fuel (MultiContourTrace.mk0 startv height cuts pn) =
      .ok st2) :
    st2.sub_tasks.length = cuts + 1 ∧
    (∀ i (hi : i < st2.sub_tasks.length),
      (st2.sub_tasks.get ⟨i, hi⟩).center =
        startv + ((i : ℚ) * (height / (cuts : ℚ))) • (⟨0, 0, 1⟩ : V3) ∧
      (st2.sub_tasks.get ⟨i, hi⟩).plane_normal = (⟨0, 0, height⟩ : V3)) ∧
    MultiContourTrace.get_keypoints st2 =
      (st2.sub_tasks.map ContourTrace.get_keypoints).flatten ∧
    (MultiContourTrace.get_keypoints st2).length =
      (st2.sub_tasks.map (fun c => (ContourTrace.get_keypoints c).length)).sum := by
  simp only [MultiContourTrace.build, MultiContourTrace.mk0] at hok
  obtain ⟨ch, ⟨hsta, hh, hc, hsub⟩, hlen, hget⟩ :=
    mct_buildGo_ok_spec h fuel startv _ _ (cuts + 1) 0 _ st2 hok
  have hsub2 : st2.sub_tasks = ch := by simpa using hsub
  refine ⟨by rw [hsub2, hlen], ?_, rfl, ?_⟩
  · intro i hi
    have hi2 : i < ch.length := by rw [← hsub2]; exact hi
    have hgi := hget i hi2
    rw [list_get_congr st2.sub_tasks ch hsub2 i hi hi2]
    constructor
    · rw [hgi.1, V3.eq_iff]
      refine ⟨?_, ?_, ?_⟩ <;>
        (simp only [V3.add_def, V3.sub_def, V3.smul_def]; push_cast; ring)
    · rw [hgi.2, V3.eq_iff]
      refine ⟨?_, ?_, ?_⟩ <;>
        (simp only [V3.sub_def]; ring)
  · simp only [MultiContourTrace.get_keypoints, List.length_flatten, List.map_map]
    rfl

/-- Expected state of the C5 witness build (`hostTriv`, `cuts = 3`,
`height = 1/2`): four empty children at heights 0, 1/6, 1/3, 1/2. -/
def mctW5 : MultiContourTrace :=
  ⟨⟨0, 0, 0⟩, 1/2, 3,
   [⟨⟨0, 0, 0⟩, ⟨0, 0, 1/2⟩, none, []⟩,
    ⟨⟨0, 0, 1/6⟩, ⟨0, 0, 1/2⟩, none, []⟩,
    ⟨⟨0, 0, 1/3⟩, ⟨0, 0, 1/2⟩, none, []⟩,
    ⟨⟨0, 0, 1/2⟩, ⟨0, 0, 1/2⟩, none, []⟩]⟩

theorem c5_witness :
    (1 ≤ 3) ∧
    (MultiContourTrace.build hostTriv 0 (MultiContourTrace.mk0 ⟨0, 0, 0⟩ (1/2) 3 ⟨0, 0, 1⟩) =
      .ok mctW5) ∧
    (mctW5.sub_tasks.length = 3 + 1 ∧
     (∀ i (hi : i < mctW5.sub_tasks.length),
       (mctW5.sub_tasks.get ⟨i, hi⟩).center =
         (⟨0, 0, 0⟩ : V3) + ((i : ℚ) * ((1/2) / ((3 : ℕ) : ℚ))) • (⟨0, 0, 1⟩ : V3) ∧
       (mctW5.sub_tasks.get ⟨i, hi⟩).plane_normal = (⟨0, 0, 1/2⟩ : V3)) ∧
     MultiContourTrace.get_keypoints mctW5 =
       (mctW5.sub_tasks.map ContourTrace.get_keypoints).flatten ∧
     (MultiContourTrace.get_keypoints mctW5).length =
       (mctW5.sub_tasks.map (fun c => (ContourTrace.get_keypoints c).length)).sum) :=
  ⟨by norm_num, by with_unfolding_all decide,
   c5_multi_slice_composition hostTriv 0 ⟨0, 0, 0⟩ (1/2) 3 ⟨0, 0, 1⟩ mctW5
     (by norm_num) (by with_unfolding_all decide)⟩

/-- C10: the `plane_normal` argument of the `MultiContourTrace` constructor
has no effect: it is not stored, so two constructions differing only in it
are equal states, build identically, and the slicing normal actually used by
every built sub-task is the Z-aligned start-to-end vector `(0, 0, height)`. -/
theorem c10_plane_normal_has_no_effect (h : Host) (fuel : ℕ) (startv : V3) (height : ℚ)
    (cuts : ℕ) (pn1 pn2 : V3) (st2 : MultiContourTrace)
    (hok : MultiContourTrace.build h fuel (MultiContourTrace.mk0 startv height cuts pn1) =
      .ok st2) :
    MultiContourTrace.mk0 startv height cuts pn1 =
      MultiContourTrace.mk0 startv height cuts pn2 ∧
    MultiContourTrace.build h fuel (MultiContourTrace.mk0 startv height cuts pn1) =
      MultiContourTrace.build h fuel (MultiContourTrace.mk0 startv height cuts pn2) ∧
    MultiContourTrace.build h fuel (MultiContourTrace.mk0 startv height cuts pn2) = .ok st2 ∧
    ∀ t ∈ st2.sub_tasks, t.plane_normal = (⟨0, 0, height⟩ : V3) := by
  refine ⟨rfl, rfl, hok, ?_⟩
  simp only [MultiContourTrace.build, MultiContourTrace.mk0] at hok
  obtain ⟨ch, ⟨hsta, hh, hc, hsub⟩, hlen, hget⟩ :=
    mct_buildGo_ok_spec h fuel startv _ _ (cuts + 1) 0 _ st2 hok
  have hsub2 : st2.sub_tasks = ch := by simpa using hsub
  intro t ht
  rw [hsub2] at ht
  obtain ⟨⟨j, hj⟩, hjt⟩ := List.mem_iff_get.mp ht
  rw [← hjt, (hget j hj).2, V3.eq_iff]
  refine ⟨?_, ?_, ?_⟩ <;> (simp only [V3.sub_def]; ring)

/-- Expected state of the C10 witness build (`hostTriv`, `cuts = 1`,
`height = 1/2`): two empty children at heights 0 and 1/2. -/
def mctW10 : MultiContourTrace :=
  ⟨⟨0, 0, 0⟩, 1/2, 1,
   [⟨⟨0, 0, 0⟩, ⟨0, 0, 1/2⟩, none, []⟩,
    ⟨⟨0, 0, 1/2⟩, ⟨0, 0, 1/2⟩, none, []⟩]⟩

theorem c10_witness :
    (MultiContourTrace.build hostTriv 0 (MultiContourTrace.mk0 ⟨0, 0, 0⟩ (1/2) 1 ⟨5, 7, 9⟩) =
      .ok mctW10) ∧
    (MultiContourTrace.mk0 ⟨0, 0, 0⟩ (1/2) 1 ⟨5, 7, 9⟩ =
       MultiContourTrace.mk0 ⟨0, 0, 0⟩ (1/2) 1 ⟨0, 0, 1⟩ ∧
     MultiContourTrace.build hostTriv 0 (MultiContourTrace.mk0 ⟨0, 0, 0⟩ (1/2) 1 ⟨5, 7, 9⟩) =
       MultiContourTrace.build hostTriv 0 (MultiContourTrace.mk0 ⟨0, 0, 0⟩ (1/2) 1 ⟨0, 0, 1⟩) ∧
     MultiContourTrace.build hostTriv 0 (MultiContourTrace.mk0 ⟨0, 0, 0⟩ (1/2) 1 ⟨0, 0, 1⟩) =
       .ok mctW10 ∧
     ∀ t ∈ mctW10.sub_tasks, t.plane_normal = (⟨0, 0, 1/2⟩ : V3)) :=
  ⟨by with_unfolding_all decide,
   c10_plane_normal_has_no_effect hostTriv 0 ⟨0, 0, 0⟩ (1/2) 1 ⟨5, 7, 9⟩ ⟨0, 0, 1⟩ mctW10
     (by with_unfolding_all decide)⟩

/-- A concrete ray-cast behaviour for witnesses: points with `x < 0` are
"inside" (each principal-axis cast hits once, restarting past `(1,0,0)`
escapes), and any cast in a `-x` direction from `x ≥ 0` hits the surface
point `(2,0,0)` with normal `(0,0,1)`. -/
def rcW : RayCast := fun o d =>
  if o.x < 0 then some ⟨⟨1, 0, 0⟩, ⟨1, 0, 0⟩, 0⟩
  else if d.x < 0 then some ⟨⟨2, 0, 0⟩, ⟨0, 0, 1⟩, 0⟩
  else none

/-- A concrete host whose slice pipeline always yields the single contour
vertex `(0,0,0)` and whose ray casts follow `rcW`. -/
def hostW : Host :=
  ⟨rcW, fun _ _ => .ok (some [⟨0, 0, 0⟩]), fun v => v, fun _ => ⟨0, 0, 0⟩, fun _ _ => 0, 3⟩

/-- The keypoint sampled by `hostW` at the contour vertex `(0,0,0)`. -/
def kpW : KP := ⟨⟨2, 0, 0⟩, ⟨0, 0, 0⟩⟩

/-- `ContourTrace` state after one build under `hostW`. -/
def ctW1 : ContourTrace := ⟨⟨0, 0, 0⟩, ⟨0, 0, 1⟩, some [⟨0, 0, 0⟩], [kpW]⟩

/-- `ContourTrace` state after a second build under `hostW`: the sampled
keypoint has been appended again. -/
def ctW2 : ContourTrace := ⟨⟨0, 0, 0⟩, ⟨0, 0, 1⟩, some [⟨0, 0, 0⟩], [kpW, kpW]⟩

/-- C2 counterexample: under `hostW`, a second `build()` on the same
`ContourTrace` does not reproduce the first build's keypoint sequence — it
appends the freshly sampled keypoints to it (two keypoints instead of one). -/
theorem c2_counterexample_second_build_differs :
    ContourTrace.build hostW 1 (ContourTrace.mk0 ⟨0, 0, 0⟩ ⟨0, 0, 1⟩) = .ok ctW1 ∧
    ContourTrace.build hostW 1 ctW1 = .ok ctW2 ∧
    ctW2.keypoints ≠ ctW1.keypoints :=
  ⟨by with_unfolding_all decide, by with_unfolding_all decide,
   by with_unfolding_all decide⟩

theorem length_sortKeypoints (h : Host) (ks : List KP) :
    (sortKeypoints h ks).length = ks.length := by
  simp [sortKeypoints, List.length_mergeSort]

/-- C2 (amended): task rebuilds accumulate instead of replacing: a second
`build()` on a `ContourTrace` appends the freshly sampled poses onto the kept
keypoints (doubling the count), and a second `build()` on a
`MultiContourTrace` appends another `cuts + 1` sub-tasks. -/
theorem c2_amended_rebuild_appends (h : Host) (fuel : ℕ)
    (st0 st1 st2 : ContourTrace) (m0 m1 m2 : MultiContourTrace)
    (hk0 : st0.keypoints = [])
    (hb1 : ContourTrace.build h fuel st0 = .ok st1)
    (hb2 : ContourTrace.build h fuel st1 = .ok st2)
    (hm0 : m0.sub_tasks = [])
    (hmb1 : MultiContourTrace.build h fuel m0 = .ok m1)
    (hmb2 : MultiContourTrace.build h fuel m1 = .ok m2) :
    st2.keypoints.length = 2 * st1.keypoints.length ∧
    m1.sub_tasks.length = m0.cuts + 1 ∧
    m2.sub_tasks.length = 2 * (m0.cuts + 1) := by
  obtain ⟨r, hcc, hcase⟩ := ct_build_ok_cases h fuel st0 st1 hb1
  have hmain : st2.keypoints.length = 2 * st1.keypoints.length := by
    rcases hcase with ⟨hnone, hst1⟩ | ⟨verts, s, hsome, hs, hst1⟩
    · -- no contour: both builds leave the empty keypoint list in place
      have hr : r = none := by
        cases r with
        | none => rfl
        | some v => simp [contourAfter] at hnone
      subst hr
      have hco0 : st0.contour = none := by simpa [contourAfter] using hnone
      have h1fields : st1.center = st0.center ∧ st1.plane_normal = st0.plane_normal ∧
          st1.keypoints = [] ∧ st1.contour = none := by
        rw [hst1]
        exact ⟨rfl, rfl, hk0, by simpa [contourAfter] using hco0⟩
      obtain ⟨r2, hcc2, hcase2⟩ := ct_build_ok_cases h fuel st1 st2 hb2
      have hr2 : r2 = none := by
        rw [h1fields.1, h1fields.2.1, hcc] at hcc2
        exact (Except.ok.injEq _ _).mp hcc2.symm
      subst hr2
      rcases hcase2 with ⟨hnone2, hst2⟩ | ⟨verts2, s2, hsome2, hs2, hst2⟩
      · rw [hst2]
        simp [h1fields.2.2.1]
      · rw [contourAfter, h1fields.2.2.2] at hsome2
        exact absurd hsome2 (by simp)
    · -- a contour was found: the second build samples the same vertices again
      have h1fields : st1.center = st0.center ∧ st1.plane_normal = st0.plane_normal ∧
          st1.keypoints = minimize_objects_angular_distance h.piq
            (sortKeypoints h (st0.keypoints ++ s)) ∧ st1.contour = some verts := by
        rw [hst1]
        exact ⟨rfl, rfl, rfl, hsome⟩
      have hlen1 : st1.keypoints.length = s.length := by
        rw [h1fields.2.2.1, length_minimize, length_sortKeypoints, hk0]
        simp
      obtain ⟨r2, hcc2, hcase2⟩ := ct_build_ok_cases h fuel st1 st2 hb2
      have hr2 : r2 = r := by
        rw [h1fields.1, h1fields.2.1, hcc] at hcc2
        exact (Except.ok.injEq _ _).mp hcc2.symm
      rw [hr2] at hcase2
      have hca2 : contourAfter st1 r = some verts := by
        cases r with
        | none =>
          rw [contourAfter, h1fields.2.2.2]
        | some v =>
          have : v = verts := by simpa [contourAfter] using hsome
          rw [this]
          rfl
      rcases hcase2 with ⟨hnone2, hst2⟩ | ⟨verts2, s2, hsome2, hs2, hst2⟩
      · rw [hca2] at hnone2
        exact absurd hnone2 (by simp)
      · have hv2 : verts2 = verts := by
          rw [hca2] at hsome2
          exact ((Option.some.injEq _ _).mp hsome2).symm
        subst hv2
        have hs2s : s2 = s := by
          rw [hs] at hs2
          exact (Option.some.injEq _ _).mp hs2.symm
        subst hs2s
        rw [hst2]
        simp only [length_minimize, length_sortKeypoints, List.length_append]
        rw [hlen1]
        ring
  refine ⟨hmain, ?_, ?_⟩
  · simp only [MultiContourTrace.build] at hmb1
    obtain ⟨ch, ⟨_, _, _, hsub⟩, hlen, _⟩ :=
      mct_buildGo_ok_spec h fuel m0.start _ _ (m0.cuts + 1) 0 _ m1 hmb1
    rw [hsub, hm0] at *
    simp [hlen]
  · simp only [MultiContourTrace.build] at hmb1 hmb2
    obtain ⟨ch, ⟨_, _, hcuts1, hsub⟩, hlen, _⟩ :=
      mct_buildGo_ok_spec h fuel m0.start _ _ (m0.cuts + 1) 0 _ m1 hmb1
    obtain ⟨ch2, ⟨_, _, _, hsub2⟩, hlen2, _⟩ :=
      mct_buildGo_ok_spec h fuel m1.start _ _ (m1.cuts + 1) 0 _ m2 hmb2
    rw [hsub2, hsub, hm0]
    simp [hlen, hlen2, hcuts1]
    ring

/-- First-build state of the C2 witness `MultiContourTrace` under `hostW`. -/
def mctV1 : MultiContourTrace :=
  ⟨⟨0, 0, 0⟩, 1/2, 1,
   [⟨⟨0, 0, 0⟩, ⟨0, 0, 1/2⟩, some [⟨0, 0, 0⟩], [kpW]⟩,
    ⟨⟨0, 0, 1/2⟩, ⟨0, 0, 1/2⟩, some [⟨0, 0, 0⟩], [kpW]⟩]⟩

/-- Second-build state of the C2 witness `MultiContourTrace`: two more
sub-tasks appended. -/
def mctV2 : MultiContourTrace :=
  ⟨⟨0, 0, 0⟩, 1/2, 1,
   [⟨⟨0, 0, 0⟩, ⟨0, 0, 1/2⟩, some [⟨0, 0, 0⟩], [kpW]⟩,
    ⟨⟨0, 0, 1/2⟩, ⟨0, 0, 1/2⟩, some [⟨0, 0, 0⟩], [kpW]⟩,
    ⟨⟨0, 0, 0⟩, ⟨0, 0, 1/2⟩, some [⟨0, 0, 0⟩], [kpW]⟩,
    ⟨⟨0, 0, 1/2⟩, ⟨0, 0, 1/2⟩, some [⟨0, 0, 0⟩], [kpW]⟩]⟩

theorem c2_amended_witness :
    ((ContourTrace.mk0 ⟨0, 0, 0⟩ ⟨0, 0, 1⟩).keypoints = [] ∧
     ContourTrace.build hostW 1 (ContourTrace.mk0 ⟨0, 0, 0⟩ ⟨0, 0, 1⟩) = .ok ctW1 ∧
     ContourTrace.build hostW 1 ctW1 = .ok ctW2 ∧
     (MultiContourTrace.mk0 ⟨0, 0, 0⟩ (1/2) 1 ⟨0, 0, 1⟩).sub_tasks = [] ∧
     MultiContourTrace.build hostW 1 (MultiContourTrace.mk0 ⟨0, 0, 0⟩ (1/2) 1 ⟨0, 0, 1⟩) =
       .ok mctV1 ∧
     MultiContourTrace.build hostW 1 mctV1 = .ok mctV2) ∧
    (ctW2.keypoints.length = 2 * ctW1.keypoints.length ∧
     mctV1.sub_tasks.length = (MultiContourTrace.mk0 ⟨0, 0, 0⟩ (1/2) 1 ⟨0, 0, 1⟩).cuts + 1 ∧
     mctV2.sub_tasks.length =
       2 * ((MultiContourTrace.mk0 ⟨0, 0, 0⟩ (1/2) 1 ⟨0, 0, 1⟩).cuts + 1)) :=
  ⟨⟨rfl, by with_unfolding_all decide, by with_unfolding_all decide, rfl,
    by with_unfolding_all decide, by with_unfolding_all decide⟩,
   c2_amended_rebuild_appends hostW 1 (ContourTrace.mk0 ⟨0, 0, 0⟩ ⟨0, 0, 1⟩) ctW1 ctW2
     (MultiContourTrace.mk0 ⟨0, 0, 0⟩ (1/2) 1 ⟨0, 0, 1⟩) mctV1 mctV2 rfl
     (by with_unfolding_all decide) (by with_unfolding_all decide) rfl
     (by with_unfolding_all decide) (by with_unfolding_all decide)⟩

theorem jobBuildGo_ok_keypoints (h : Host) (fuel : ℕ) :
    ∀ (ts done : List CAMTask) (kps : List KP) (j2 : XYZIJK_Job),
      XYZIJK_Job.buildGo h fuel done kps ts = .ok j2 → j2.keypoints = kps := by
  intro ts
  induction ts with
  | nil =>
    intro done kps j2 hgo
    have : XYZIJK_Job.mk done kps = j2 := by simpa [XYZIJK_Job.buildGo] using hgo
    rw [← this]
  | cons t rest ih =>
    intro done kps j2 hgo
    cases hb : CAMTask.build h fuel t with
    | ok t2 =>
      have hgo2 : XYZIJK_Job.buildGo h fuel (done ++ [t2]) kps rest = .ok j2 := by
        simpa [XYZIJK_Job.buildGo, hb, CAMTask.buildValue, pyTruthy] using hgo
      exact ih (done ++ [t2]) kps j2 hgo2
    | exn t2 e => simp [XYZIJK_Job.buildGo, hb] at hgo
    | hang => simp [XYZIJK_Job.buildGo, hb] at hgo

/-- For every job whose build loop returns normally, `self.keypoints` is the
empty list: `CAMTask.build` returns `None`, so the truthiness guard in
`XYZIJK_Job.build` never extends the aggregate. -/
theorem jobBuild_ok_keypoints_empty (h : Host) (fuel : ℕ) (j j2 : XYZIJK_Job)
    (hok : XYZIJK_Job.build true h fuel j = .ok j2) : j2.keypoints = [] := by
  have hgo : XYZIJK_Job.buildGo h fuel [] [] j.tasks = .ok j2 := by
    simpa [XYZIJK_Job.build] using hok
  exact jobBuildGo_ok_keypoints h fuel j.tasks [] [] j2 hgo

/-- The C1 witness job: one `ContourTrace` task that builds one keypoint. -/
def jobW : XYZIJK_Job := ⟨[CAMTask.contourTrace (ContourTrace.mk0 ⟨0, 0, 0⟩ ⟨0, 0, 1⟩)], []⟩

/-- The C1 witness job's state after `build()`. -/
def jobW1 : XYZIJK_Job := ⟨[CAMTask.contourTrace ctW1], []⟩

/-- C1 (code bug): after a successful `XYZIJK_Job.build()` on a job whose one
task builds one keypoint, the job's flat sequence `self.keypoints` is `[]`,
not the concatenation of the children's keypoint sequences (which is
`[kpW]`): `CAMTask.build()` has no return value, so
`if task_keypoints: self.keypoints.extend(...)` never fires. -/
theorem c1_job_keypoints_not_aggregated :
    XYZIJK_Job.build true hostW 1 jobW = .ok jobW1 ∧
    jobW1.keypoints = [] ∧
    (jobW1.tasks.map CAMTask.get_keypoints).flatten = [kpW] ∧
    jobW1.keypoints ≠ (jobW1.tasks.map CAMTask.get_keypoints).flatten :=
  ⟨by with_unfolding_all decide, rfl, by with_unfolding_all decide,
   by with_unfolding_all decide⟩

/-- The state a task is left in by `task.build()` when that build returns
normally (used to phrase "earlier tasks keep their built keypoints"). -/
def CAMTask.buildOk (h : Host) (fuel : ℕ) (t : CAMTask) : CAMTask :=
  match CAMTask.build h fuel t with
  | .ok t2 => t2
  | .exn t2 _ => t2
  | .hang => t

theorem jobBuildGo_exn (h : Host) (fuel : ℕ) :
    ∀ (pre done : List CAMTask) (kps : List KP) (tk sk : CAMTask) (e : ℕ)
      (post : List CAMTask),
      (∀ t ∈ pre, ∃ t2, CAMTask.build h fuel t = .ok t2) →
      CAMTask.build h fuel tk = .exn sk e →
      XYZIJK_Job.buildGo h fuel done kps (pre ++ tk :: post) =
        .exn ⟨done ++ pre.map (CAMTask.buildOk h fuel) ++ sk :: post, kps⟩ e := by
  intro pre
  induction pre with
  | nil =>
    intro done kps tk sk e post hpre hk
    simp [XYZIJK_Job.buildGo, hk]
  | cons t rest ih =>
    intro done kps tk sk e post hpre hk
    obtain ⟨t2, ht2⟩ := hpre t (by simp)
    have hstep : XYZIJK_Job.buildGo h fuel done kps ((t :: rest) ++ tk :: post) =
        XYZIJK_Job.buildGo h fuel (done ++ [t2]) kps (rest ++ tk :: post) := by
      simp [XYZIJK_Job.buildGo, ht2, CAMTask.buildValue, pyTruthy]
    rw [hstep, ih (done ++ [t2]) kps tk sk e post (fun a ha => hpre a (by simp [ha])) hk]
    have hbo : CAMTask.buildOk h fuel t = t2 := by
      simp [CAMTask.buildOk, ht2]
    simp [hbo]

/-- C6: if the k-th task's build raises, `XYZIJK_Job.build` propagates that
exception; the tasks before the k-th are left in (and keep) their built
states, the k-th is left in the state its failed build produced, and no task
after the k-th is built (their states are untouched). -/
theorem c6_task_exception_aborts_job (h : Host) (fuel : ℕ) (j : XYZIJK_Job)
    (pre post : List CAMTask) (tk sk : CAMTask) (e : ℕ)
    (hj : j.tasks = pre ++ tk :: post)
    (hpre : ∀ t ∈ pre, ∃ t2, CAMTask.build h fuel t = .ok t2)
    (hk : CAMTask.build h fuel tk = .exn sk e) :
    XYZIJK_Job.build true h fuel j =
      .exn ⟨pre.map (CAMTask.buildOk h fuel) ++ sk :: post, []⟩ e := by
  have hb : XYZIJK_Job.build true h fuel j = XYZIJK_Job.buildGo h fuel [] [] j.tasks := by
    simp [XYZIJK_Job.build]
  rw [hb, hj]
  simpa using jobBuildGo_exn h fuel pre [] [] tk sk e post hpre hk

/-- Host for the C6 witness: slicing succeeds (empty cut) on planes through
`z = 0` and raises (error 7) anywhere else. -/
def hostE : Host :=
  ⟨fun _ _ => none,
   fun c _ => if c.z = 0 then .ok none else .error 7,
   fun v => v, fun _ => ⟨0, 0, 0⟩, fun _ _ => 0, 3⟩

def preE : List CAMTask := [CAMTask.contourTrace (ContourTrace.mk0 ⟨0, 0, 0⟩ ⟨0, 0, 1⟩)]

def tkE : CAMTask := CAMTask.contourTrace (ContourTrace.mk0 ⟨0, 0, 1⟩ ⟨0, 0, 1⟩)

def postE : List CAMTask := [CAMTask.contourTrace (ContourTrace.mk0 ⟨0, 0, 2⟩ ⟨0, 0, 1⟩)]

def jobE : XYZIJK_Job := ⟨preE ++ tkE :: postE, []⟩

theorem c6_witness :
    (jobE.tasks = preE ++ tkE :: postE) ∧
    (CAMTask.build hostE 1 tkE = .exn tkE 7) ∧
    XYZIJK_Job.build true hostE 1 jobE =
      .exn ⟨preE.map (CAMTask.buildOk hostE 1) ++ tkE :: postE, []⟩ 7 :=
  ⟨rfl, by with_unfolding_all decide,
   c6_task_exception_aborts_job hostE 1 jobE preE postE tkE tkE 7 rfl
     (by
       intro t ht
       rw [preE, List.mem_singleton] at ht
       subst ht
       exact ⟨CAMTask.contourTrace (ContourTrace.mk0 ⟨0, 0, 0⟩ ⟨0, 0, 1⟩),
         by with_unfolding_all decide⟩)
     (by with_unfolding_all decide)⟩

/-- A bmesh vertex: coordinate and vertex normal. -/
structure MVert where
  co : V3
  nor : V3
deriving DecidableEq

/-- A bmesh edge: its two vertices. -/
structure MEdge where
  v1 : MVert
  v2 : MVert
deriving DecidableEq

/-- A triangulated bmesh snapshot: its edge list (all
`bmesh_check_intersect_objects` reads from it). -/
structure BMesh where
  edges : List MEdge
deriving DecidableEq

/-- A Blender scene object; identity (`obj != obj2` compares identities),
with its mesh data behind the host snapshot function. -/
structure MObj where
  id : ℕ
deriving DecidableEq

/-- Host primitives used by `bmesh_check_intersect_objects`:
`bmesh_copy_from_object` (transformed triangulated snapshot), the temp
object's `ray_cast` (keyed by the mesh it was built from; `none` =
`index == -1`), `Vector.normalized` and `calc_length`. -/
structure IHost where
  snapshot : MObj → BMesh
  rayCast : BMesh → V3 → V3 → ℚ → Option ℤ
  normalized : V3 → V3
  calcLength : MEdge → ℚ

/-- `EPS_NORMAL = 0.000001`. -/
def epsNormal : ℚ := 1 / 1000000

/-- `EPS_CENTER = 0.01`. -/
def epsCenter : ℚ := 1 / 100

/-- `mathutils.Vector.lerp a b t = a + t*(b - a)`. -/
def lerp (a b : V3) (t : ℚ) : V3 := a + t • (b - a)

/-- One loop iteration of `bmesh_check_intersect_objects`: offset the edge
toward its midpoint and along the averaged vertex normal, then ray-cast
along it against the temp mesh, for the edge's length. -/
def edgeCast (ih : IHost) (tmesh : BMesh) (ed : MEdge) : Option ℤ :=
  let co_1 := ed.v1.co
  let co_2 := ed.v2.co
  let co_mid := (1/2 : ℚ) • (co_1 + co_2)
  let no_mid := epsNormal • ih.normalized (ed.v1.nor + ed.v2.nor)
  let c1 := lerp co_1 co_mid epsCenter + no_mid
  let c2 := lerp co_2 co_mid epsCenter + no_mid
  ih.rayCast tmesh c1 (ih.normalized (c2 - c1)) (ih.calcLength ed)

/-- Result of `bmesh_check_intersect_objects`: the boolean, or the
`assert(obj != obj2)` failure. -/
inductive IntersectRes where
  | assertionError : IntersectRes
  | result : Bool → IntersectRes
deriving DecidableEq

/-- `helpers.bmesh_check_intersect_objects obj obj2`: assert the objects are
distinct; snapshot both; swap so the simpler mesh (fewer edges) is iterated;
report true iff some offset edge ray cast against the other mesh hits. -/
def bmesh_check_intersect_objects (ih : IHost) (obj obj2 : MObj) : IntersectRes :=
  if obj = obj2 then .assertionError
  else
    let bm := ih.snapshot obj
    let bm2 := ih.snapshot obj2
    let p := if bm.edges.length > bm2.edges.length then (bm2, bm) else (bm, bm2)
    .result (p.1.edges.any (fun ed => (edgeCast ih p.2 ed).isSome))

/-- C3 counterexample: the mesh-intersection test applied to an object and
that object itself does not return true — the `assert(obj != obj2)` at the
top of `bmesh_check_intersect_objects` fails. -/
theorem c3_counterexample_self_intersection_asserts :
    bmesh_check_intersect_objects
        ⟨fun _ => ⟨[]⟩, fun _ _ _ _ => none, fun v => v, fun _ => 0⟩ ⟨0⟩ ⟨0⟩ =
      .assertionError ∧
    bmesh_check_intersect_objects
        ⟨fun _ => ⟨[]⟩, fun _ _ _ _ => none, fun v => v, fun _ => 0⟩ ⟨0⟩ ⟨0⟩ ≠
      .result true := by
  exact ⟨by decide, by decide⟩

/-- C3 (amended): calling the mesh-intersection test on the same object
raises an assertion error rather than returning true; on two distinct
objects placed so far apart that every offset edge ray cast misses (as for a
far-away translated copy), it returns false. -/
theorem c3_amended_assert_and_far_false (ih : IHost) (a b : MObj) (hab : a ≠ b)
    (hmiss : ∀ (m : BMesh) (o d : V3) (dist : ℚ), ih.rayCast m o d dist = none) :
    bmesh_check_intersect_objects ih a a = .assertionError ∧
    bmesh_check_intersect_objects ih a b = .result false := by
  constructor
  · simp [bmesh_check_intersect_objects]
  · simp only [bmesh_check_intersect_objects, if_neg hab]
    have hany : ∀ (l : List MEdge) (m : BMesh),
        l.any (fun ed => (edgeCast ih m ed).isSome) = false := by
      intro l m
      induction l with
      | nil => rfl
      | cons ed rest ihl => simp [edgeCast, hmiss, ihl]
    by_cases hcmp : (ih.snapshot a).edges.length > (ih.snapshot b).edges.length
    · simp [if_pos hcmp, hany]
    · simp [if_neg hcmp, hany]

theorem c3_amended_witness :
    ((⟨0⟩ : MObj) ≠ (⟨1⟩ : MObj)) ∧
    (bmesh_check_intersect_objects
        ⟨fun _ => ⟨[⟨⟨⟨0, 0, 0⟩, ⟨0, 0, 1⟩⟩, ⟨⟨1, 0, 0⟩, ⟨0, 0, 1⟩⟩⟩]⟩,
         fun _ _ _ _ => none, fun v => v, fun _ => 1⟩ ⟨0⟩ ⟨0⟩ = .assertionError ∧
     bmesh_check_intersect_objects
        ⟨fun _ => ⟨[⟨⟨⟨0, 0, 0⟩, ⟨0, 0, 1⟩⟩, ⟨⟨1, 0, 0⟩, ⟨0, 0, 1⟩⟩⟩]⟩,
         fun _ _ _ _ => none, fun v => v, fun _ => 1⟩ ⟨0⟩ ⟨1⟩ = .result false) :=
  ⟨by decide,
   c3_amended_assert_and_far_false
     ⟨fun _ => ⟨[⟨⟨⟨0, 0, 0⟩, ⟨0, 0, 1⟩⟩, ⟨⟨1, 0, 0⟩, ⟨0, 0, 1⟩⟩⟩]⟩,
      fun _ _ _ _ => none, fun v => v, fun _ => 1⟩ ⟨0⟩ ⟨1⟩
     (by decide) (fun _ _ _ _ => rfl)⟩

/-- Heap of mutable pose objects, for the deep-copy semantics of
`get_keypoints`: a bump-allocated store of pose cells. -/
structure Heap where
  next : ℕ
  mem : ℕ → KP

/-- Mutate the pose object at address `a`. -/
def Heap.write (hp : Heap) (a : ℕ) (v : KP) : Heap :=
  ⟨hp.next, fun x => if x = a then v else hp.mem x⟩

/-- Allocate a fresh pose object holding value `v`. -/
def Heap.alloc (hp : Heap) (v : KP) : Heap × ℕ :=
  (⟨hp.next + 1, fun x => if x = hp.next then v else hp.mem x⟩, hp.next)

/-- `copy.deepcopy` over a keypoint list whose pose objects live at the given
addresses: allocate a fresh cell per pose, copying its current value. -/
def deepcopy (hp : Heap) : List ℕ → Heap × List ℕ
  | [] => (hp, [])
  | a :: rest =>
    let p1 := hp.alloc (hp.mem a)
    let p2 := deepcopy p1.1 rest
    (p2.1, p1.2 :: p2.2)

/-- A task in the heap model: a `CAMTask` leaf holding its `_keypoints`
pose-object addresses, or a `MultiContourTrace` holding its `ContourTrace`
sub-tasks' keypoint address lists. -/
inductive HTask where
  | leaf : List ℕ → HTask
  | node : List (List ℕ) → HTask

/-- All pose-object addresses reachable from the task's internal state. -/
def HTask.addrs : HTask → List ℕ
  | .leaf ks => ks
  | .node subs => subs.flatten

/-- The `points += task.get_keypoints()` loop of
`MultiContourTrace.get_keypoints` (each child is a `CAMTask` whose
`get_keypoints` deep-copies). -/
def getKeypointsNode (hp : Heap) : List (List ℕ) → Heap × List ℕ
  | [] => (hp, [])
  | s :: rest =>
    let p1 := deepcopy hp s
    let p2 := getKeypointsNode p1.1 rest
    (p2.1, p1.2 ++ p2.2)

/-- `get_keypoints()` in the heap model: `CAMTask.get_keypoints` returns
`copy.deepcopy(self._keypoints)`; `MultiContourTrace.get_keypoints`
concatenates the children's deep copies. -/
def HTask.get_keypoints (hp : Heap) : HTask → Heap × List ℕ
  | .leaf ks => deepcopy hp ks
  | .node subs => getKeypointsNode hp subs

theorem deepcopy_next (hp : Heap) (l : List ℕ) :
    (deepcopy hp l).1.next = hp.next + l.length := by
  induction l generalizing hp with
  | nil => rfl
  | cons a rest ih =>
    simp only [deepcopy, ih, Heap.alloc, List.length_cons]
    omega

theorem deepcopy_frame (hp : Heap) (l : List ℕ) :
    ∀ a < hp.next, (deepcopy hp l).1.mem a = hp.mem a := by
  induction l generalizing hp with
  | nil => intro a ha; rfl
  | cons b rest ih =>
    intro a ha
    simp only [deepcopy]
    have h1 : (deepcopy (hp.alloc (hp.mem b)).1 rest).1.mem a =
        (hp.alloc (hp.mem b)).1.mem a := by
      refine ih (hp.alloc (hp.mem b)).1 a ?_
      simp only [Heap.alloc]
      omega
    rw [h1]
    simp only [Heap.alloc]
    rw [if_neg (by omega)]

theorem deepcopy_fresh (hp : Heap) (l : List ℕ) :
    ∀ a2 ∈ (deepcopy hp l).2, hp.next ≤ a2 ∧ a2 < (deepcopy hp l).1.next := by
  induction l generalizing hp with
  | nil => intro a2 ha2; simp [deepcopy] at ha2
  | cons b rest ih =>
    intro a2 ha2
    simp only [deepcopy, List.mem_cons] at ha2
    rcases ha2 with h1 | h2
    · subst h1
      refine ⟨le_refl _, ?_⟩
      rw [deepcopy_next, List.length_cons]
      have : (hp.alloc (hp.mem b)).2 = hp.next := rfl
      rw [this]
      omega
    · have h3 := ih (hp.alloc (hp.mem b)).1 a2 h2
      rw [deepcopy_next] at h3
      have h4 : (hp.alloc (hp.mem b)).1.next = hp.next + 1 := rfl
      rw [h4] at h3
      refine ⟨by omega, ?_⟩
      rw [deepcopy_next, List.length_cons]
      omega

theorem deepcopy_values (hp : Heap) (l : List ℕ) (hv : ∀ a ∈ l, a < hp.next) :
    (deepcopy hp l).2.map (deepcopy hp l).1.mem = l.map hp.mem := by
  induction l generalizing hp with
  | nil => rfl
  | cons b rest ih =>
    simp only [deepcopy, List.map_cons]
    congr 1
    · -- the copied head cell still holds the head value after the tail copies
      have hmem : (deepcopy (hp.alloc (hp.mem b)).1 rest).1.mem hp.next =
          (hp.alloc (hp.mem b)).1.mem hp.next := by
        refine deepcopy_frame _ rest hp.next ?_
        simp only [Heap.alloc]
        omega
      show (deepcopy (hp.alloc (hp.mem b)).1 rest).1.mem hp.next = hp.mem b
      rw [hmem]
      simp [Heap.alloc]
    · have hv2 : ∀ a ∈ rest, a < (hp.alloc (hp.mem b)).1.next := by
        intro a ha
        have := hv a (by simp [ha])
        simp only [Heap.alloc]
        omega
      rw [ih _ hv2]
      refine List.map_congr_left ?_
      intro a ha
      have haa : a < hp.next := hv a (by simp [ha])
      simp only [Heap.alloc]
      rw [if_neg (by omega)]

theorem nodeGo_next (subs : List (List ℕ)) :
    ∀ hp : Heap, (getKeypointsNode hp subs).1.next = hp.next + subs.flatten.length := by
  induction subs with
  | nil => intro hp; rfl
  | cons s rest ih =>
    intro hp
    simp only [getKeypointsNode, ih, deepcopy_next, List.flatten_cons, List.length_append]
    omega

theorem nodeGo_frame (subs : List (List ℕ)) :
    ∀ (hp : Heap) (a : ℕ), a < hp.next →
      (getKeypointsNode hp subs).1.mem a = hp.mem a := by
  induction subs with
  | nil => intro hp a ha; rfl
  | cons s rest ih =>
    intro hp a ha
    simp only [getKeypointsNode]
    have h1 : (getKeypointsNode (deepcopy hp s).1 rest).1.mem a =
        (deepcopy hp s).1.mem a := by
      refine ih (deepcopy hp s).1 a ?_
      rw [deepcopy_next]
      omega
    rw [h1]
    exact deepcopy_frame hp s a ha

theorem nodeGo_fresh (subs : List (List ℕ)) :
    ∀ (hp : Heap), ∀ a2 ∈ (getKeypointsNode hp subs).2,
      hp.next ≤ a2 ∧ a2 < (getKeypointsNode hp subs).1.next := by
  induction subs with
  | nil => intro hp a2 ha2; simp [getKeypointsNode] at ha2
  | cons s rest ih =>
    intro hp a2 ha2
    simp only [getKeypointsNode, List.mem_append] at ha2
    rcases ha2 with h1 | h2
    · have hd := deepcopy_fresh hp s a2 h1
      rw [deepcopy_next] at hd
      refine ⟨hd.1, ?_⟩
      rw [nodeGo_next, List.flatten_cons, List.length_append]
      omega
    · have hn := ih (deepcopy hp s).1 a2 h2
      rw [nodeGo_next, deepcopy_next] at hn
      rw [nodeGo_next, List.flatten_cons, List.length_append]
      exact ⟨by omega, by omega⟩

theorem nodeGo_values (subs : List (List ℕ)) :
    ∀ hp : Heap, (∀ a ∈ subs.flatten, a < hp.next) →
      (getKeypointsNode hp subs).2.map (getKeypointsNode hp subs).1.mem =
        subs.flatten.map hp.mem := by
  induction subs with
  | nil => intro hp hv; rfl
  | cons s rest ih =>
    intro hp hv
    have hvs : ∀ a ∈ s, a < hp.next := by
      intro a ha
      exact hv a (by simp [List.flatten_cons, ha])
    have hvr : ∀ a ∈ rest.flatten, a < (deepcopy hp s).1.next := by
      intro a ha
      have := hv a (by simp [List.flatten_cons, ha])
      rw [deepcopy_next]
      omega
    simp only [getKeypointsNode, List.flatten_cons, List.map_append]
    congr 1
    · -- the head child's copies keep their values through the later copies
      have hup : ∀ a2 ∈ (deepcopy hp s).2,
          (getKeypointsNode (deepcopy hp s).1 rest).1.mem a2 = (deepcopy hp s).1.mem a2 := by
        intro a2 ha2
        exact nodeGo_frame rest (deepcopy hp s).1 a2 (deepcopy_fresh hp s a2 ha2).2
      rw [List.map_congr_left hup]
      exact deepcopy_values hp s hvs
    · rw [ih (deepcopy hp s).1 hvr]
      refine List.map_congr_left ?_
      intro a ha
      exact deepcopy_frame hp s a (hv a (by simp [List.flatten_cons, ha]))

theorem getKeypoints_frame (hp : Heap) (t : HTask) :
    ∀ a < hp.next, (t.get_keypoints hp).1.mem a = hp.mem a := by
  cases t with
  | leaf ks => exact deepcopy_frame hp ks
  | node subs => exact fun a ha => nodeGo_frame subs hp a ha

theorem getKeypoints_fresh (hp : Heap) (t : HTask) :
    ∀ a2 ∈ (t.get_keypoints hp).2, hp.next ≤ a2 := by
  cases t with
  | leaf ks => exact fun a2 ha2 => (deepcopy_fresh hp ks a2 ha2).1
  | node subs => exact fun a2 ha2 => (nodeGo_fresh subs hp a2 ha2).1

theorem getKeypoints_values (hp : Heap) (t : HTask)
    (hv : ∀ a ∈ t.addrs, a < hp.next) :
    (t.get_keypoints hp).2.map (t.get_keypoints hp).1.mem = t.addrs.map hp.mem := by
  cases t with
  | leaf ks => exact deepcopy_values hp ks hv
  | node subs => exact nodeGo_values subs hp hv

/-- C9: `get_keypoints()` returns a deep copy and is side-effect-free: every
pose object of the task's internal keypoint sequence keeps its value, the
returned sequence consists of fresh pose objects (none of them is an
internal one) holding equal values, and mutating any returned pose object
leaves every internal pose object's value unchanged. -/
theorem c9_get_keypoints_deep_copy (hp : Heap) (t : HTask)
    (hvalid : ∀ a ∈ t.addrs, a < hp.next) :
    (∀ a ∈ t.addrs, (t.get_keypoints hp).1.mem a = hp.mem a) ∧
    (∀ a2 ∈ (t.get_keypoints hp).2, a2 ∉ t.addrs) ∧
    ((t.get_keypoints hp).2.map (t.get_keypoints hp).1.mem = t.addrs.map hp.mem) ∧
    (∀ a2 ∈ (t.get_keypoints hp).2, ∀ v : KP, ∀ a ∈ t.addrs,
      ((t.get_keypoints hp).1.write a2 v).mem a = hp.mem a) := by
  refine ⟨?_, ?_, getKeypoints_values hp t hvalid, ?_⟩
  · intro a ha
    exact getKeypoints_frame hp t a (hvalid a ha)
  · intro a2 ha2 hmem
    have h1 := getKeypoints_fresh hp t a2 ha2
    have h2 := hvalid a2 hmem
    omega
  · intro a2 ha2 v a ha
    have hne : a ≠ a2 := by
      have h1 := getKeypoints_fresh hp t a2 ha2
      have h2 := hvalid a ha
      omega
    simp only [Heap.write]
    rw [if_neg hne]
    exact getKeypoints_frame hp t a (hvalid a ha)

/-- Heap for the C9 witness: one pose object at address 0. -/
def hp0 : Heap := ⟨1, fun _ => ⟨⟨0, 0, 0⟩, ⟨0, 0, 0⟩⟩⟩

/-- Task for the C9 witness: a leaf task owning the pose object at 0. -/
def ht0 : HTask := .leaf [0]

theorem c9_witness :
    (∀ a ∈ ht0.addrs, a < hp0.next) ∧
    ((∀ a ∈ ht0.addrs, (ht0.get_keypoints hp0).1.mem a = hp0.mem a) ∧
     (∀ a2 ∈ (ht0.get_keypoints hp0).2, a2 ∉ ht0.addrs) ∧
     ((ht0.get_keypoints hp0).2.map (ht0.get_keypoints hp0).1.mem = ht0.addrs.map hp0.mem) ∧
     (∀ a2 ∈ (ht0.get_keypoints hp0).2, ∀ v : KP, ∀ a ∈ ht0.addrs,
       ((ht0.get_keypoints hp0).1.write a2 v).mem a = hp0.mem a)) :=
  ⟨by decide, c9_get_keypoints_deep_copy hp0 ht0 (by decide)⟩
